import Mathlib

/-!
# Verification of the Slack grocery-bot webhook layer

A shallow embedding of the boundary logic of `slack_server.py` and the
startup validation of `tesco_groceries.py`: signature verification,
event deduplication, grocery-list parsing, notification posting, and the
routing of the automation result to success/failure notifications.

Strings are modelled as Lean `String` / `List Char`; Python string
primitives (`strip`, `split`, `in`, `lower`, `int(...)`) are given
explicit executable models below.  The HMAC-SHA256 hex digest is an
abstract parameter `hmacSha256Hex : String → String → String`
(the webhook code treats it as a black box from `hashlib`/`hmac`).
-/

namespace SlackBot

/-- Characters stripped by Python `str.strip()` (the ASCII whitespace set). -/
def isPySpace (c : Char) : Bool :=
  c = ' ' || c = '\t' || c = '\n' || c = '\r' || c = '\x0b' || c = '\x0c'

/-- Strip leading Python-whitespace. -/
def stripLeft (l : List Char) : List Char := l.dropWhile isPySpace

/-- Strip trailing Python-whitespace. -/
def stripRight (l : List Char) : List Char := (l.reverse.dropWhile isPySpace).reverse

/-- Model of Python `str.strip()` on a character list. -/
def stripList (l : List Char) : List Char := stripRight (stripLeft l)

/-- Model of Python `str.strip()`. -/
def pyStrip (s : String) : String := ⟨stripList s.data⟩

/-- Model of Python `str.split(sep)` for a one-character separator
(`"a,b".split(',') == ["a","b"]`, `"".split(',') == [""]`). -/
def splitChar (sep : Char) : List Char → List (List Char)
  | [] => [[]]
  | c :: cs =>
    match splitChar sep cs with
    | [] => [[]]
    | r :: rs => if c = sep then [] :: r :: rs else (c :: r) :: rs

/-- Model of Python `sub in s` (substring containment). -/
def containsSub (sub : List Char) : List Char → Bool
  | [] => sub.isEmpty
  | c :: cs => sub.isPrefixOf (c :: cs) || containsSub sub cs

/-- Model of Python `str.lower()` (ASCII case folding, as used on ASCII markers). -/
def lowerList (l : List Char) : List Char := l.map Char.toLower

/-- Digit groups of a Python integer literal: digits possibly separated by
single underscores (`int("1_000") == 1000`); underscores may not lead,
trail, or repeat. `parseDigitsFrom acc l` folds the remaining characters
onto the already-accumulated value `acc`. -/
def parseDigitsFrom (acc : Nat) : List Char → Option Nat
  | [] => some acc
  | '_' :: d :: rest =>
    if d.isDigit then parseDigitsFrom (acc * 10 + (d.toNat - '0'.toNat)) rest else none
  | '_' :: [] => none
  | d :: rest =>
    if d.isDigit then parseDigitsFrom (acc * 10 + (d.toNat - '0'.toNat)) rest else none

/-- A nonempty digit sequence (with optional interior underscores). -/
def parseDigits : List Char → Option Nat
  | [] => none
  | d :: rest =>
    if d.isDigit then parseDigitsFrom (d.toNat - '0'.toNat) rest else none

/-- Sign and magnitude of a Python integer literal body. -/
def pyIntCore : List Char → Option Int
  | '+' :: rest => (parseDigits rest).map Int.ofNat
  | '-' :: rest => (parseDigits rest).map (fun n => -(Int.ofNat n : Int))
  | l => (parseDigits l).map Int.ofNat

/-- Model of Python `int(s)` on a string: surrounding whitespace is ignored,
an optional sign precedes the digits. `none` models `ValueError`. -/
def pyInt (s : String) : Option Int := pyIntCore (stripList s.data)

/-- Python truthiness of an optional string (`None` and `""` are falsy). -/
def truthy : Option String → Bool
  | none => false
  | some s => !s.isEmpty

/-- Constant-time accumulator of `hmac.compare_digest`: bitwise OR of the
XORs of corresponding characters, `1` on length mismatch. -/
def ctAcc : List Char → List Char → Nat
  | [], [] => 0
  | [], _ :: _ => 1
  | _ :: _, [] => 1
  | a :: as, b :: bs => (a.toNat ^^^ b.toNat) ||| ctAcc as bs

/-- Model of `hmac.compare_digest`: equal iff the accumulated difference is zero. -/
def compare_digest (a b : String) : Bool := ctAcc a.data b.data = 0

theorem nat_or_eq_zero_iff (x y : Nat) : x ||| y = 0 ↔ x = 0 ∧ y = 0 := by
  constructor
  · intro h
    constructor <;>
      · apply Nat.eq_of_testBit_eq
        intro i
        have hb : (x ||| y).testBit i = Nat.testBit 0 i := by rw [h]
        rw [Nat.testBit_or, Nat.zero_testBit] at hb
        simp only [Bool.or_eq_false_iff] at hb
        simp [Nat.zero_testBit, hb.1, hb.2]
  · rintro ⟨rfl, rfl⟩; rfl

theorem ctAcc_eq_zero_iff : ∀ (a b : List Char), ctAcc a b = 0 ↔ a = b := by
  intro a
  induction a with
  | nil => intro b; cases b <;> simp [ctAcc]
  | cons c as ih =>
    intro b
    cases b with
    | nil => simp [ctAcc]
    | cons d bs =>
      simp only [ctAcc, nat_or_eq_zero_iff, List.cons.injEq, ih]
      constructor
      · rintro ⟨h1, h2⟩
        refine ⟨?_, h2⟩
        have hn : c.toNat = d.toNat := Nat.xor_eq_zero.mp h1
        exact Char.ext (UInt32.ext hn)
      · rintro ⟨rfl, h2⟩
        exact ⟨by simp, h2⟩

/-- `compare_digest` behaves as string equality. -/
theorem compare_digest_eq (a b : String) : compare_digest a b = true ↔ a = b := by
  unfold compare_digest
  rw [decide_eq_true_eq, ctAcc_eq_zero_iff]
  constructor
  · intro h; cases a; cases b; exact congrArg String.mk h
  · intro h; rw [h]

/-- `verify_slack_signature` from `slack_server.py`: reject when the signing
secret is unset/empty, when either header is missing/empty, when the
timestamp does not parse as an integer, or when it is more than 300 seconds
from the current time; otherwise compare the supplied signature with
`"v0=" ++ hex(HMAC-SHA256(secret, "v0:" ++ timestamp ++ ":" ++ body))`
using the constant-time `compare_digest`. -/
def verify_slack_signature (hmacSha256Hex : String → String → String)
    (secret : Option String) (now : Int)
    (request_body : String) (timestamp : String) (signature : String) : Bool :=
  if !truthy secret then false
  else
    let s := secret.getD ""
    if timestamp.isEmpty || signature.isEmpty then false
    else
      match pyInt timestamp with
      | none => false
      | some t =>
        if (now - t).natAbs > 60 * 5 then false
        else
          let sig_basestring := "v0:" ++ timestamp ++ ":" ++ request_body
          let expected_signature := "v0=" ++ hmacSha256Hex s sig_basestring
          compare_digest expected_signature signature

theorem isEmpty_eq_false_of_ne (s : String) (h : s ≠ "") : s.isEmpty = false := by
  cases he : s.isEmpty with
  | false => rfl
  | true => exact absurd ((String.isEmpty_iff s).mp he) h

/-- C1: `verify_slack_signature` returns false when the signing secret is
unset or empty, when either header is absent/empty, when the timestamp does
not parse as an integer, or when it is more than 300 seconds from the
current time even with a correct HMAC; otherwise it returns true exactly
when the supplied signature equals `"v0="` followed by the hex HMAC-SHA256
of `"v0:" ++ timestamp ++ ":" ++ body` under the secret, compared with the
constant-time `compare_digest`. -/
theorem verify_slack_signature_spec (hm : String → String → String) (secret : Option String)
    (now : Int) (body ts sig : String) :
    verify_slack_signature hm secret now body ts sig = true ↔
      ∃ s, secret = some s ∧ s ≠ "" ∧ ts ≠ "" ∧ sig ≠ "" ∧
        ∃ t, pyInt ts = some t ∧ (now - t).natAbs ≤ 300 ∧
          sig = "v0=" ++ hm s ("v0:" ++ ts ++ ":" ++ body) := by
  cases secret with
  | none => simp [verify_slack_signature, truthy]
  | some s =>
    by_cases hs : s = ""
    · subst hs
      simp only [verify_slack_signature, truthy]
      simp
      intro h
      exact absurd h (by decide)
    · have hsE : s.isEmpty = false := isEmpty_eq_false_of_ne s hs
      by_cases hts : ts = ""
      · subst hts
        simp [verify_slack_signature, truthy, hsE, pyInt, stripList, stripLeft,
          stripRight, pyIntCore, parseDigits]
      · have htsE : ts.isEmpty = false := isEmpty_eq_false_of_ne ts hts
        by_cases hsig : sig = ""
        · subst hsig
          simp [verify_slack_signature, truthy, hsE, htsE]
          intro h
          exact absurd h (by decide)
        · have hsigE : sig.isEmpty = false := isEmpty_eq_false_of_ne sig hsig
          cases hp : pyInt ts with
          | none => simp [verify_slack_signature, truthy, hsE, htsE, hsigE, hp]
          | some t =>
            by_cases habs : (now - t).natAbs > 60 * 5
            · have hle : ¬ (now - t).natAbs ≤ 300 := by omega
              simp [verify_slack_signature, truthy, hsE, htsE, hsigE, hp, habs, hle]
            · have habs' : (now - t).natAbs ≤ 300 := by omega
              have hlhs : verify_slack_signature hm (some s) now body ts sig =
                  compare_digest ("v0=" ++ hm s ("v0:" ++ ts ++ ":" ++ body)) sig := by
                simp [verify_slack_signature, truthy, hsE, htsE, hsigE, hp, habs]
              rw [hlhs, compare_digest_eq]
              constructor
              · intro h
                exact ⟨s, rfl, hs, hts, hsig, t, rfl, habs', h.symm⟩
              · rintro ⟨s', hss', _, _, _, t', ht', _, hsg⟩
                cases hss'
                injection ht' with ht''
                subst ht''
                exact hsg.symm

/-! ## Startup and collaborator configuration validation -/

/-- Environment configuration read by the two modules. -/
structure EnvCfg where
  slack_signing_secret : Option String
  slack_bot_token : Option String
  browser_use_api_key : Option String
  tesco_email : Option String
  tesco_password : Option String

/-- The `__main__` block of `slack_server.py` (lines 396-401): only the
Slack signing secret and bot token are checked before `uvicorn.run` binds
the socket; a `ValueError` aborts startup. -/
def startup_validation (e : EnvCfg) : Except String Unit :=
  if !truthy e.slack_signing_secret then
    .error "SLACK_SIGNING_SECRET environment variable is required"
  else if !truthy e.slack_bot_token then
    .error "SLACK_BOT_TOKEN environment variable is required"
  else .ok ()

/-- The validation at the top of `tesco_groceries.run_groceries`
(lines 157-184): the collaborator configuration (automation API key and
site credentials) is checked only when an automation run starts. -/
def run_groceries_validation (e : EnvCfg) : Except String Unit :=
  if !truthy e.browser_use_api_key then
    .error "BROWSER_USE_API_KEY environment variable is required"
  else if !truthy e.tesco_email || !truthy e.tesco_password then
    .error "TESCO_EMAIL and TESCO_PASSWORD environment variables are required"
  else .ok ()

/-- C5 counterexample: with the Slack secret and token set but the
automation API key and both site credentials absent, process startup
succeeds (the socket is bound), so the collaborator configuration is not
validated at startup. -/
theorem startup_ignores_collaborator_config :
    startup_validation ⟨some "secret", some "xoxb-token", none, none, none⟩ = .ok () ∧
    run_groceries_validation ⟨some "secret", some "xoxb-token", none, none, none⟩ =
      .error "BROWSER_USE_API_KEY environment variable is required" := by
  constructor <;> rfl

/-- C5 (amended): process startup validates only the Slack configuration
(signing secret and bot token), aborting with a descriptive error before
binding the socket when either is absent or empty; the collaborator
configuration (automation API key and the pair of site credentials) is
validated only when an automation run starts, inside `run_groceries`,
which raises a descriptive error when any of them is absent or empty. -/
theorem startup_and_collaborator_validation (e : EnvCfg) :
    (startup_validation e = .ok () ↔
      truthy e.slack_signing_secret = true ∧ truthy e.slack_bot_token = true) ∧
    (run_groceries_validation e = .ok () ↔
      truthy e.browser_use_api_key = true ∧ truthy e.tesco_email = true ∧
        truthy e.tesco_password = true) ∧
    (truthy e.slack_signing_secret = false →
      startup_validation e = .error "SLACK_SIGNING_SECRET environment variable is required") ∧
    (truthy e.browser_use_api_key = false →
      run_groceries_validation e = .error "BROWSER_USE_API_KEY environment variable is required") := by
  refine ⟨?_, ?_, ?_, ?_⟩
  · unfold startup_validation
    cases h1 : truthy e.slack_signing_secret <;> cases h2 : truthy e.slack_bot_token <;> simp
  · unfold run_groceries_validation
    cases h1 : truthy e.browser_use_api_key <;> cases h2 : truthy e.tesco_email <;>
      cases h3 : truthy e.tesco_password <;> simp
  · intro h; simp [startup_validation, h]
  · intro h; simp [run_groceries_validation, h]

/-- Witness for the amended C5 theorem at a concrete environment missing
the signing secret and the automation API key. -/
theorem startup_and_collaborator_validation_witness :
    startup_validation ⟨none, some "xoxb", none, some "e", some "p"⟩ =
      .error "SLACK_SIGNING_SECRET environment variable is required" ∧
    run_groceries_validation ⟨none, some "xoxb", none, some "e", some "p"⟩ =
      .error "BROWSER_USE_API_KEY environment variable is required" :=
  ⟨(startup_and_collaborator_validation ⟨none, some "xoxb", none, some "e", some "p"⟩).2.2.1
      (by decide),
   (startup_and_collaborator_validation ⟨none, some "xoxb", none, some "e", some "p"⟩).2.2.2
      (by decide)⟩

/-! ## Notifier: `post_to_slack` -/

/-- Outcome of the single outbound HTTP request made by `post_to_slack`:
either a network-level fault, or a response with an HTTP status code and
the optional boolean `ok` field of its JSON body (`none` models a missing
field or an unparseable body). -/
inductive HttpOutcome where
  | netError
  | status (code : Nat) (okFlag : Option Bool)
deriving DecidableEq

/-- Observable behaviour of one `post_to_slack` call. -/
structure PostResult where
  attempts : Nat
  raised : Bool
  success : Bool
deriving DecidableEq

/-- `post_to_slack` from `slack_server.py` (lines 150-190): skip entirely
when the bot token is unset; otherwise make exactly one request inside a
`try`: `raise_for_status()` throws on any non-2xx status (caught and
logged), then the body's own `ok` flag decides success (a falsy or missing
flag is logged as a Slack API error). Every fault is caught, so the call
never raises to its caller and never retries. -/
def post_to_slack (token : Option String) (out : HttpOutcome) : PostResult :=
  if !truthy token then ⟨0, false, false⟩
  else
    match out with
    | .netError => ⟨1, false, false⟩
    | .status code okFlag =>
      if code < 200 || 299 < code then ⟨1, false, false⟩
      else
        match okFlag with
        | some true => ⟨1, false, true⟩
        | _ => ⟨1, false, false⟩

/-- C8: `post_to_slack` never raises to its caller, makes at most one
delivery attempt, and reports success exactly when the token is configured,
the response was delivered with a 2xx status, and the response body's own
`ok` flag is true — so success is judged by the body's flag, not by the
HTTP status alone. -/
theorem post_to_slack_spec (token : Option String) (out : HttpOutcome) :
    (post_to_slack token out).raised = false ∧
    (post_to_slack token out).attempts ≤ 1 ∧
    ((post_to_slack token out).success = true ↔
      truthy token = true ∧
        ∃ code, out = .status code (some true) ∧ 200 ≤ code ∧ code ≤ 299) := by
  cases ht : truthy token with
  | false =>
    have hval : post_to_slack token out = ⟨0, false, false⟩ := by
      simp [post_to_slack, ht]
    rw [hval]
    refine ⟨rfl, by simp, ?_⟩
    simp [ht]
  | true =>
    cases out with
    | netError =>
      have hval : post_to_slack token .netError = ⟨1, false, false⟩ := by
        simp [post_to_slack, ht]
      rw [hval]
      refine ⟨rfl, le_refl 1, ?_⟩
      simp
    | status code okFlag =>
      by_cases hc : (code < 200 || 299 < code) = true
      · have hns : ¬ (200 ≤ code ∧ code ≤ 299) := by
          simp only [Bool.or_eq_true, decide_eq_true_eq] at hc
          omega
        have hval : post_to_slack token (.status code okFlag) = ⟨1, false, false⟩ := by
          simp [post_to_slack, ht, hc]
        rw [hval]
        refine ⟨rfl, le_refl 1, ?_⟩
        simp only [Bool.false_eq_true, false_iff, not_and]
        rintro - ⟨c, hcc, h1, h2⟩
        cases hcc
        exact hns ⟨h1, h2⟩
      · have hcc : 200 ≤ code ∧ code ≤ 299 := by
          simp only [Bool.or_eq_true, decide_eq_true_eq, not_or] at hc
          omega
        cases okFlag with
        | none =>
          have hval : post_to_slack token (.status code none) = ⟨1, false, false⟩ := by
            simp [post_to_slack, ht, hc]
          rw [hval]
          refine ⟨rfl, le_refl 1, ?_⟩
          simp only [Bool.false_eq_true, false_iff, not_and]
          rintro - ⟨c, hcr, -, -⟩
          exact Option.noConfusion (HttpOutcome.status.inj hcr).2
        | some b =>
          cases b with
          | false =>
            have hval : post_to_slack token (.status code (some false)) = ⟨1, false, false⟩ := by
              simp [post_to_slack, ht, hc]
            rw [hval]
            refine ⟨rfl, le_refl 1, ?_⟩
            simp only [Bool.false_eq_true, false_iff, not_and]
            rintro - ⟨c, hcr, -, -⟩
            have := (HttpOutcome.status.inj hcr).2
            exact Bool.noConfusion (Option.some.inj this)
          | true =>
            have hval : post_to_slack token (.status code (some true)) = ⟨1, false, true⟩ := by
              simp [post_to_slack, ht, hc]
            rw [hval]
            refine ⟨rfl, le_refl 1, ?_⟩
            constructor
            · intro _
              exact ⟨rfl, code, rfl, hcc.1, hcc.2⟩
            · intro _
              rfl

/-! ## Message parser: `parse_grocery_list` -/

/-- The character class `[A-Z0-9]` of the user-mention pattern. -/
def isUpperDigit (c : Char) : Bool := c.isUpper || c.isDigit

/-- Given the text after `"<@"`, if it begins with `[A-Z0-9]+>` return the
remainder after the `'>'`; greedy matching of the run is equivalent to the
regex engine's because `'>'` is not in the class. -/
def mentionTail (l : List Char) : Option (List Char) :=
  match l.dropWhile isUpperDigit with
  | '>' :: rest => if (l.takeWhile isUpperDigit).isEmpty then none else some rest
  | _ => none

/-- If `l` begins with a full user-mention token `<@[A-Z0-9]+>`, the text
after the token. -/
def headMention (l : List Char) : Option (List Char) :=
  match l with
  | c1 :: c2 :: rest => if c1 = '<' && c2 = '@' then mentionTail rest else none
  | _ => none

theorem headMention_nil : headMention [] = none := rfl

theorem headMention_one (c : Char) : headMention [c] = none := rfl

theorem headMention_cons₂ (c1 c2 : Char) (rest : List Char) :
    headMention (c1 :: c2 :: rest) =
      if c1 = '<' && c2 = '@' then mentionTail rest else none := rfl

theorem dropWhile_length_le (p : Char → Bool) (l : List Char) :
    (l.dropWhile p).length ≤ l.length := by
  induction l with
  | nil => simp
  | cons c cs ih =>
    by_cases h : p c <;> simp [List.dropWhile_cons, h] <;> omega

theorem mentionTail_length {l r : List Char} (h : mentionTail l = some r) :
    r.length < l.length := by
  unfold mentionTail at h
  split at h
  next rest heq =>
    split at h
    · exact absurd h (by simp)
    · injection h with h'
      subst h'
      have := dropWhile_length_le isUpperDigit l
      rw [heq] at this
      simp at this
      omega
  next => exact absurd h (by simp)

theorem headMention_length {l r : List Char} (h : headMention l = some r) :
    r.length < l.length := by
  unfold headMention at h
  split at h
  next c1 c2 rest =>
    split at h
    · have := mentionTail_length h
      simp
      omega
    · exact absurd h (by simp)
  next => exact absurd h (by simp)

/-- Fueled scanner for `re.sub(r'<@[A-Z0-9]+>', '', text)`: scan left to
right, removing each non-overlapping user-mention token. The fuel only
makes the recursion structural; `subMention` supplies enough of it. -/
def subMentionF : Nat → List Char → List Char
  | 0, _ => []
  | _ + 1, [] => []
  | n + 1, c :: rest =>
    match headMention (c :: rest) with
    | some r => subMentionF n r
    | none => c :: subMentionF n rest

/-- Model of `re.sub(r'<@[A-Z0-9]+>', '', text)`. -/
def subMention (l : List Char) : List Char := subMentionF l.length l

theorem subMentionF_congr : ∀ (n m : Nat) (l : List Char),
    l.length ≤ n → l.length ≤ m → subMentionF n l = subMentionF m l := by
  intro n
  induction n with
  | zero =>
    intro m l hn _
    have : l = [] := List.length_eq_zero.mp (Nat.le_zero.mp hn)
    subst this
    cases m <;> rfl
  | succ n ih =>
    intro m l hn hm
    cases l with
    | nil => cases m <;> rfl
    | cons c rest =>
      cases m with
      | zero => exact absurd hm (by simp)
      | succ m =>
        show (match headMention (c :: rest) with
              | some r => subMentionF n r
              | none => c :: subMentionF n rest) =
            (match headMention (c :: rest) with
              | some r => subMentionF m r
              | none => c :: subMentionF m rest)
        cases hh : headMention (c :: rest) with
        | some r =>
          have hr := headMention_length hh
          simp only [List.length_cons] at hr hn hm
          exact ih m r (by omega) (by omega)
        | none =>
          have : rest.length ≤ n := by simp at hn; omega
          have hm' : rest.length ≤ m := by simp at hm; omega
          rw [ih m rest this hm']

theorem subMention_nil : subMention [] = [] := rfl

theorem subMention_cons (c : Char) (rest : List Char) : subMention (c :: rest) =
    match headMention (c :: rest) with
    | some r => subMention r
    | none => c :: subMention rest := by
  show (match headMention (c :: rest) with
        | some r => subMentionF rest.length r
        | none => c :: subMentionF rest.length rest) = _
  cases hh : headMention (c :: rest) with
  | some r =>
    have hr := headMention_length hh
    simp only [List.length_cons] at hr
    exact subMentionF_congr rest.length r.length r (by omega) (le_refl _)
  | none =>
    rfl

theorem subMention_cons_some {c : Char} {rest r : List Char}
    (h : headMention (c :: rest) = some r) : subMention (c :: rest) = subMention r := by
  rw [subMention_cons, h]

theorem subMention_cons_none {c : Char} {rest : List Char}
    (h : headMention (c :: rest) = none) : subMention (c :: rest) = c :: subMention rest := by
  rw [subMention_cons, h]

/-- The literal bot-name mention, lowercase. -/
def botChars : List Char := ['@', 't', 'e', 's', 'c', 'o', '-', 'b', 'o', 't']

/-- Fueled scanner for `re.sub(r'@tesco-bot', '', text, flags=re.IGNORECASE)`:
scan left to right, removing each non-overlapping case-insensitive
occurrence of the 10-character literal. -/
def subBotF : Nat → List Char → List Char
  | 0, _ => []
  | _ + 1, [] => []
  | n + 1, c :: rest =>
    if ((c :: rest).take 10).map Char.toLower = botChars then
      subBotF n ((c :: rest).drop 10)
    else c :: subBotF n rest

/-- Model of `re.sub(r'@tesco-bot', '', text, flags=re.IGNORECASE)`. -/
def subBot (l : List Char) : List Char := subBotF l.length l

theorem subBotF_congr : ∀ (n m : Nat) (l : List Char),
    l.length ≤ n → l.length ≤ m → subBotF n l = subBotF m l := by
  intro n
  induction n with
  | zero =>
    intro m l hn _
    have : l = [] := List.length_eq_zero.mp (Nat.le_zero.mp hn)
    subst this
    cases m <;> rfl
  | succ n ih =>
    intro m l hn hm
    cases l with
    | nil => cases m <;> rfl
    | cons c rest =>
      cases m with
      | zero => exact absurd hm (by simp)
      | succ m =>
        show (if ((c :: rest).take 10).map Char.toLower = botChars then
              subBotF n ((c :: rest).drop 10)
              else c :: subBotF n rest) =
            (if ((c :: rest).take 10).map Char.toLower = botChars then
              subBotF m ((c :: rest).drop 10)
              else c :: subBotF m rest)
        by_cases h : ((c :: rest).take 10).map Char.toLower = botChars
        · rw [if_pos h, if_pos h]
          have hlen := congrArg List.length h
          simp only [List.length_map, List.length_take, botChars,
            List.length_cons] at hlen
          simp only [List.length_cons] at hn hm
          exact ih m _ (by simp only [List.length_drop, List.length_cons]; omega)
            (by simp only [List.length_drop, List.length_cons]; omega)
        · rw [if_neg h, if_neg h]
          simp only [List.length_cons] at hn hm
          rw [ih m rest (by omega) (by omega)]

theorem subBot_nil : subBot [] = [] := rfl

theorem subBot_cons_pos {c : Char} {rest : List Char}
    (h : ((c :: rest).take 10).map Char.toLower = botChars) :
    subBot (c :: rest) = subBot ((c :: rest).drop 10) := by
  show (if ((c :: rest).take 10).map Char.toLower = botChars then
        subBotF rest.length ((c :: rest).drop 10)
        else c :: subBotF rest.length rest) = _
  rw [if_pos h]
  have hlen := congrArg List.length h
  simp only [List.length_map, List.length_take, botChars, List.length_cons] at hlen
  exact subBotF_congr rest.length ((c :: rest).drop 10).length _
    (by simp only [List.length_drop, List.length_cons]; omega) (le_refl _)

theorem subBot_cons_neg {c : Char} {rest : List Char}
    (h : ¬ ((c :: rest).take 10).map Char.toLower = botChars) :
    subBot (c :: rest) = c :: subBot rest := by
  show (if ((c :: rest).take 10).map Char.toLower = botChars then
        subBotF rest.length ((c :: rest).drop 10)
        else c :: subBotF rest.length rest) = _
  rw [if_neg h]
  rfl

/-- `parse_grocery_list` from `slack_server.py` (lines 121-147): trim, strip
user-mention tokens, strip `@tesco-bot` case-insensitively, trim again,
split on commas when a comma is present and otherwise on newlines, trim
each segment, and drop empty segments. -/
def parse_grocery_list (s : String) : List String :=
  let t0 := stripList s.data
  let t1 := subMention t0
  let t2 := subBot t1
  let t3 := stripList t2
  let segs := if t3.contains ',' then splitChar ',' t3 else splitChar '\n' t3
  ((segs.map stripList).filter (fun seg => !seg.isEmpty)).map (fun l => (⟨l⟩ : String))

/-- The claim's rule list, in its stated order: strip user-mention tokens,
strip the bot-name mention case-insensitively, trim whitespace, split on
commas if a comma is present and otherwise on newlines, trim each segment
and drop empty segments (no initial trim). -/
def parse_rules (s : String) : List String :=
  let t1 := subMention s.data
  let t2 := subBot t1
  let t3 := stripList t2
  let segs := if t3.contains ',' then splitChar ',' t3 else splitChar '\n' t3
  ((segs.map stripList).filter (fun seg => !seg.isEmpty)).map (fun l => (⟨l⟩ : String))

/-! ### Whitespace commutation: the code's extra initial `strip()` is
invisible in the final result, so `parse_grocery_list` matches the claim's
rule order. -/

theorem ws_char_props {c : Char} (h : isPySpace c = true) :
    c ≠ '<' ∧ c ≠ '@' ∧ c ≠ '>' ∧ isUpperDigit c = false ∧
      Char.toLower c = c ∧ Char.toLower c ∉ botChars := by
  simp only [isPySpace, Bool.or_eq_true, decide_eq_true_eq] at h
  rcases h with ((((rfl | rfl) | rfl) | rfl) | rfl) | rfl <;> exact (by decide)

theorem bot_chars_not_ws {c : Char} (h : c ∈ botChars) : isPySpace c = false := by
  fin_cases h <;> decide

theorem dropWhile_append_of_ne_nil {p : Char → Bool} {l : List Char}
    (h : l.dropWhile p ≠ []) (w : List Char) :
    (l ++ w).dropWhile p = l.dropWhile p ++ w := by
  induction l with
  | nil => exact absurd rfl h
  | cons c cs ih =>
    by_cases hc : p c
    · rw [List.cons_append, List.dropWhile_cons_of_pos hc,
        List.dropWhile_cons_of_pos hc]
      exact ih (by rwa [List.dropWhile_cons_of_pos hc] at h)
    · rw [List.cons_append, List.dropWhile_cons_of_neg hc,
        List.dropWhile_cons_of_neg hc, List.cons_append]

theorem takeWhile_append_of_ne_nil {p : Char → Bool} {l : List Char}
    (h : l.dropWhile p ≠ []) (w : List Char) :
    (l ++ w).takeWhile p = l.takeWhile p := by
  induction l with
  | nil => exact absurd rfl h
  | cons c cs ih =>
    by_cases hc : p c
    · rw [List.cons_append, List.takeWhile_cons_of_pos hc,
        List.takeWhile_cons_of_pos hc,
        ih (by rwa [List.dropWhile_cons_of_pos hc] at h)]
    · rw [List.cons_append, List.takeWhile_cons_of_neg hc,
        List.takeWhile_cons_of_neg hc]

theorem dropWhile_ws_list {w : List Char} (hw : ∀ c ∈ w, isPySpace c = true) :
    w.dropWhile isUpperDigit = w := by
  cases w with
  | nil => rfl
  | cons c cs =>
    have := (ws_char_props (hw c (by simp))).2.2.2.1
    rw [List.dropWhile_cons_of_neg (by simp [this])]

theorem dropWhile_append_of_nil {p : Char → Bool} {l : List Char}
    (h : l.dropWhile p = []) (w : List Char) :
    (l ++ w).dropWhile p = w.dropWhile p := by
  induction l with
  | nil => rfl
  | cons c cs ih =>
    have hc : p c = true := by
      by_contra hc
      rw [List.dropWhile_cons_of_neg (by simpa using hc)] at h
      exact List.noConfusion h
    rw [List.cons_append, List.dropWhile_cons_of_pos hc]
    exact ih (by rwa [List.dropWhile_cons_of_pos hc] at h)

theorem mentionTail_append_some {l r w : List Char} (h : mentionTail l = some r) :
    mentionTail (l ++ w) = some (r ++ w) := by
  unfold mentionTail at h ⊢
  split at h
  next rest heq =>
    have hne : l.dropWhile isUpperDigit ≠ [] := by rw [heq]; simp
    by_cases hemp : (l.takeWhile isUpperDigit).isEmpty
    · rw [if_pos hemp] at h; exact absurd h (by simp)
    · rw [if_neg hemp] at h
      injection h with h'
      subst h'
      rw [dropWhile_append_of_ne_nil hne w, heq,
        takeWhile_append_of_ne_nil hne w]
      simp only [List.cons_append]
      rw [if_neg hemp]
  next => exact absurd h (by simp)

theorem mentionTail_append_none_ws {l w : List Char} (h : mentionTail l = none)
    (hw : ∀ c ∈ w, isPySpace c = true) : mentionTail (l ++ w) = none := by
  unfold mentionTail at h ⊢
  cases hdrop : l.dropWhile isUpperDigit with
  | nil =>
    have hdw : (l ++ w).dropWhile isUpperDigit = w := by
      rw [dropWhile_append_of_nil hdrop w]
      exact dropWhile_ws_list hw
    rw [hdw]
    cases w with
    | nil => rfl
    | cons c cs =>
      have hne := (ws_char_props (hw c (by simp))).2.2.1
      split
      next rest heq =>
        exact absurd (List.cons.inj heq).1 hne
      next => rfl
  | cons c0 t =>
    have hne : l.dropWhile isUpperDigit ≠ [] := by rw [hdrop]; simp
    have hdw : (l ++ w).dropWhile isUpperDigit = c0 :: (t ++ w) := by
      rw [dropWhile_append_of_ne_nil hne w, hdrop, List.cons_append]
    rw [hdrop] at h
    by_cases hc0 : c0 = '>'
    · subst hc0
      have h' : (if (l.takeWhile isUpperDigit).isEmpty = true then (none : Option (List Char))
          else some t) = none := h
      by_cases hemp : (l.takeWhile isUpperDigit).isEmpty
      · rw [hdw, takeWhile_append_of_ne_nil hne w]
        show (if (l.takeWhile isUpperDigit).isEmpty = true then (none : Option (List Char))
          else some (t ++ w)) = none
        rw [if_pos hemp]
      · rw [if_neg hemp] at h'
        exact absurd h' (by simp)
    · rw [hdw]
      split
      next rest heq =>
        exact absurd (List.cons.inj heq).1 hc0
      next => rfl

theorem headMention_ws {c : Char} (rest : List Char) (h : isPySpace c = true) :
    headMention (c :: rest) = none := by
  have hlt := (ws_char_props h).1
  cases rest with
  | nil => rfl
  | cons c2 r =>
    rw [headMention_cons₂]
    rw [if_neg (by simp [hlt])]

theorem headMention_append_some {l r w : List Char} (h : headMention l = some r) :
    headMention (l ++ w) = some (r ++ w) := by
  match l with
  | [] => rw [headMention_nil] at h; exact absurd h (by simp)
  | [c1] => rw [headMention_one] at h; exact absurd h (by simp)
  | c1 :: c2 :: rest =>
    rw [headMention_cons₂] at h
    simp only [List.cons_append]
    rw [headMention_cons₂]
    by_cases hc : (c1 = '<' && c2 = '@') = true
    · rw [if_pos hc] at h
      rw [if_pos hc]
      exact mentionTail_append_some h
    · rw [if_neg hc] at h
      exact absurd h (by simp)

theorem headMention_append_none_ws {l w : List Char} (h : headMention l = none)
    (hw : ∀ c ∈ w, isPySpace c = true) : headMention (l ++ w) = none := by
  match l with
  | [] =>
    rw [List.nil_append]
    cases w with
    | nil => rfl
    | cons c cs => exact headMention_ws cs (hw c (by simp))
  | [c1] =>
    cases w with
    | nil => rfl
    | cons c2 cs =>
      show headMention (c1 :: c2 :: cs) = none
      rw [headMention_cons₂]
      have := (ws_char_props (hw c2 (by simp))).2.1
      rw [if_neg (by simp [this])]
  | c1 :: c2 :: rest =>
    rw [headMention_cons₂] at h
    simp only [List.cons_append]
    rw [headMention_cons₂]
    by_cases hc : (c1 = '<' && c2 = '@') = true
    · rw [if_pos hc] at h
      rw [if_pos hc]
      exact mentionTail_append_none_ws h hw
    · rw [if_neg hc]

theorem subMention_ws_front {w : List Char} (hw : ∀ c ∈ w, isPySpace c = true)
    (l : List Char) : subMention (w ++ l) = w ++ subMention l := by
  induction w with
  | nil => rfl
  | cons c cs ih =>
    rw [List.cons_append,
      subMention_cons_none (headMention_ws _ (hw c (by simp))),
      ih (fun x hx => hw x (by simp [hx])), List.cons_append]

theorem subMention_ws_suffix : ∀ (n : Nat) (l w : List Char), l.length ≤ n →
    (∀ c ∈ w, isPySpace c = true) → subMention (l ++ w) = subMention l ++ w := by
  intro n
  induction n with
  | zero =>
    intro l w hn hw
    have : l = [] := List.length_eq_zero.mp (Nat.le_zero.mp hn)
    subst this
    rw [List.nil_append, subMention_nil, List.nil_append]
    have h2 := subMention_ws_front hw []
    rwa [List.append_nil, subMention_nil, List.append_nil] at h2
  | succ n ih =>
    intro l w hn hw
    cases l with
    | nil =>
      rw [List.nil_append, subMention_nil, List.nil_append]
      have h2 := subMention_ws_front hw []
      rwa [List.append_nil, subMention_nil, List.append_nil] at h2
    | cons c rest =>
      cases hh : headMention (c :: rest) with
      | some r =>
        have hr := headMention_length hh
        simp only [List.length_cons] at hr hn
        rw [subMention_cons_some hh, List.cons_append,
          subMention_cons_some (by
            have := headMention_append_some (w := w) hh
            rwa [List.cons_append] at this)]
        exact ih r w (by omega) hw
      | none =>
        simp only [List.length_cons] at hn
        rw [subMention_cons_none hh, List.cons_append,
          subMention_cons_none (by
            have := headMention_append_none_ws (w := w) hh hw
            rwa [List.cons_append] at this), List.cons_append]
        rw [ih rest w (by omega) hw]

theorem botCond_short_fails {l : List Char} (h : l.length < 10) :
    (l.take 10).map Char.toLower ≠ botChars := by
  intro he
  have hlen := congrArg List.length he
  simp only [List.length_map, List.length_take, botChars, List.length_cons,
    List.length_nil] at hlen
  omega

theorem botCond_ws_head {c : Char} (rest : List Char) (h : isPySpace c = true) :
    ((c :: rest).take 10).map Char.toLower ≠ botChars := by
  intro he
  rw [show (10 : Nat) = 9 + 1 from rfl, List.take_succ_cons, List.map_cons] at he
  have hhead : Char.toLower c = '@' := (List.cons.inj he).1
  rw [(ws_char_props h).2.2.2.2.1] at hhead
  exact (ws_char_props h).2.1 hhead

theorem botCond_short_ws_fails {l w : List Char} (hl : l.length < 10)
    (hw : ∀ c ∈ w, isPySpace c = true) :
    ((l ++ w).take 10).map Char.toLower ≠ botChars := by
  intro he
  by_cases hlen : (l ++ w).length < 10
  · exact botCond_short_fails hlen he
  · have hwlen : 10 - l.length ≤ w.length := by
      simp only [List.length_append] at hlen
      omega
    have htake : (l ++ w).take 10 = l ++ w.take (10 - l.length) := by
      rw [List.take_append_eq_append_take, List.take_of_length_le (by omega)]
    obtain ⟨c0, hc0⟩ : ∃ c0, c0 ∈ w.take (10 - l.length) := by
      cases hwt : w.take (10 - l.length) with
      | nil =>
        have := congrArg List.length hwt
        simp only [List.length_take, List.length_nil] at this
        omega
      | cons a t => exact ⟨a, by simp [hwt]⟩
    have hws := hw c0 (List.take_subset _ w hc0)
    have hmem : Char.toLower c0 ∈ botChars := by
      rw [← he]
      exact List.mem_map_of_mem _ (by rw [htake]; exact List.mem_append_right _ hc0)
    rw [(ws_char_props hws).2.2.2.2.1] at hmem
    rw [bot_chars_not_ws hmem] at hws
    exact Bool.noConfusion hws

theorem subBot_ws_front {w : List Char} (hw : ∀ c ∈ w, isPySpace c = true)
    (l : List Char) : subBot (w ++ l) = w ++ subBot l := by
  induction w with
  | nil => rfl
  | cons c cs ih =>
    rw [List.cons_append, subBot_cons_neg (botCond_ws_head _ (hw c (by simp))),
      ih (fun x hx => hw x (by simp [hx])), List.cons_append]

theorem subBot_ws_suffix : ∀ (n : Nat) (l w : List Char), l.length ≤ n →
    (∀ c ∈ w, isPySpace c = true) → subBot (l ++ w) = subBot l ++ w := by
  intro n
  induction n with
  | zero =>
    intro l w hn hw
    have : l = [] := List.length_eq_zero.mp (Nat.le_zero.mp hn)
    subst this
    rw [List.nil_append, subBot_nil, List.nil_append]
    have h2 := subBot_ws_front hw []
    rwa [List.append_nil, subBot_nil, List.append_nil] at h2
  | succ n ih =>
    intro l w hn hw
    cases l with
    | nil =>
      rw [List.nil_append, subBot_nil, List.nil_append]
      have h2 := subBot_ws_front hw []
      rwa [List.append_nil, subBot_nil, List.append_nil] at h2
    | cons c rest =>
      simp only [List.length_cons] at hn
      by_cases h10 : 10 ≤ (c :: rest).length
      · have htke : ((c :: rest) ++ w).take 10 = (c :: rest).take 10 :=
          List.take_append_of_le_length h10
        by_cases hcond : ((c :: rest).take 10).map Char.toLower = botChars
        · have hcond2 : ((c :: (rest ++ w)).take 10).map Char.toLower = botChars := by
            rw [show c :: (rest ++ w) = (c :: rest) ++ w from rfl, htke]
            exact hcond
          rw [show (c :: rest) ++ w = c :: (rest ++ w) from rfl,
            subBot_cons_pos hcond2, subBot_cons_pos hcond]
          have hdrop : (c :: (rest ++ w)).drop 10 = (c :: rest).drop 10 ++ w := by
            rw [show c :: (rest ++ w) = (c :: rest) ++ w from rfl]
            exact List.drop_append_of_le_length h10
          rw [hdrop]
          refine ih _ w ?_ hw
          rw [List.length_drop]
          simp only [List.length_cons]
          simp only [List.length_cons] at h10
          omega
        · have hcond2 : ¬ ((c :: (rest ++ w)).take 10).map Char.toLower = botChars := by
            rw [show c :: (rest ++ w) = (c :: rest) ++ w from rfl, htke]
            exact hcond
          rw [show (c :: rest) ++ w = c :: (rest ++ w) from rfl,
            subBot_cons_neg hcond2, subBot_cons_neg hcond, List.cons_append,
            ih rest w (by omega) hw]
      · have hlt : (c :: rest).length < 10 := by omega
        have hcondl : ¬ ((c :: rest).take 10).map Char.toLower = botChars :=
          botCond_short_fails hlt
        have hcondlw : ¬ ((c :: (rest ++ w)).take 10).map Char.toLower = botChars := by
          have h2 := botCond_short_ws_fails (l := c :: rest) (w := w) hlt hw
          rwa [show (c :: rest) ++ w = c :: (rest ++ w) from rfl] at h2
        rw [show (c :: rest) ++ w = c :: (rest ++ w) from rfl,
          subBot_cons_neg hcondlw, subBot_cons_neg hcondl, List.cons_append,
          ih rest w (by omega) hw]

theorem stripLeft_ws_append {w : List Char} (hw : ∀ c ∈ w, isPySpace c = true)
    (x : List Char) : (w ++ x).dropWhile isPySpace = x.dropWhile isPySpace := by
  induction w with
  | nil => rfl
  | cons c cs ih =>
    rw [List.cons_append, List.dropWhile_cons_of_pos (hw c (by simp))]
    exact ih (fun y hy => hw y (by simp [hy]))

theorem stripRight_ws_append {w : List Char} (hw : ∀ c ∈ w, isPySpace c = true)
    (x : List Char) : stripRight (x ++ w) = stripRight x := by
  unfold stripRight
  rw [List.reverse_append, stripLeft_ws_append (by simp [List.mem_reverse]; exact hw) _]

theorem stripList_ws_left {w x : List Char} (hw : ∀ c ∈ w, isPySpace c = true) :
    stripList (w ++ x) = stripList x := by
  unfold stripList stripLeft
  rw [stripLeft_ws_append hw x]

theorem stripList_ws_right {x w : List Char} (hw : ∀ c ∈ w, isPySpace c = true) :
    stripList (x ++ w) = stripList x := by
  unfold stripList
  by_cases hx : stripLeft x = []
  · have hallx : ∀ c ∈ x, isPySpace c = true := List.dropWhile_eq_nil_iff.mp hx
    have h1 : stripLeft (x ++ w) = [] := by
      unfold stripLeft
      rw [stripLeft_ws_append hallx w]
      exact List.dropWhile_eq_nil_iff.mpr hw
    rw [h1, hx]
  · have h1 : stripLeft (x ++ w) = stripLeft x ++ w := by
      unfold stripLeft
      exact dropWhile_append_of_ne_nil hx w
    rw [h1, stripRight_ws_append hw]

theorem strip_decomp (l : List Char) : ∃ w1 w2 : List Char,
    (∀ c ∈ w1, isPySpace c = true) ∧ (∀ c ∈ w2, isPySpace c = true) ∧
      l = w1 ++ (stripList l ++ w2) := by
  refine ⟨l.takeWhile isPySpace, ((stripLeft l).reverse.takeWhile isPySpace).reverse,
    fun c hc => List.mem_takeWhile_imp hc, ?_, ?_⟩
  · intro c hc
    rw [List.mem_reverse] at hc
    exact List.mem_takeWhile_imp hc
  · have key : stripList l ++ ((stripLeft l).reverse.takeWhile isPySpace).reverse =
        stripLeft l := by
      unfold stripList stripRight
      rw [← List.reverse_append, List.takeWhile_append_dropWhile, List.reverse_reverse]
    conv_lhs => rw [← List.takeWhile_append_dropWhile isPySpace l]
    rw [key]
    rfl

/-- The code's extra initial `strip()` makes no difference once the final
`strip()` is applied. -/
theorem strip_sub_strip (l : List Char) :
    stripList (subBot (subMention (stripList l))) =
      stripList (subBot (subMention l)) := by
  obtain ⟨w1, w2, hw1, hw2, hdecomp⟩ := strip_decomp l
  conv_rhs => rw [hdecomp]
  rw [subMention_ws_front hw1,
    subMention_ws_suffix (stripList l).length (stripList l) w2 (le_refl _) hw2,
    subBot_ws_front hw1,
    subBot_ws_suffix (subMention (stripList l)).length (subMention (stripList l)) w2
      (le_refl _) hw2,
    stripList_ws_left hw1, stripList_ws_right hw2]

/-- C4: `parse_grocery_list` computes exactly the claim's rule pipeline —
strip `<@[A-Z0-9]+>` user-mention tokens, strip the literal `@tesco-bot`
mention case-insensitively, trim, split on commas when a comma is present
else on newlines, trim segments, drop empties, preserving order with no
de-duplication — and in particular the two quoted examples parse as
stated. -/
theorem parse_grocery_list_spec :
    (∀ s : String, parse_grocery_list s = parse_rules s) ∧
    parse_grocery_list "<@U123> milk, bread,  eggs " = ["milk", "bread", "eggs"] ∧
    parse_grocery_list "@tesco-bot milk\nbread" = ["milk", "bread"] := by
  refine ⟨?_, by decide, by decide⟩
  intro s
  simp only [parse_grocery_list, parse_rules]
  rw [strip_sub_strip]

/-! ## Result routing: success/failure classification of the automation
output (`run_grocery_automation_background`, lines 221-243) -/

/-- The literal marker scanned for in the final result text. -/
def cartMarker : List Char := "CART_URL:".data

/-- Model of `line.split(sep, 1)[1]`: the text after the first occurrence
of `sep`; `none` when `sep` does not occur. -/
def afterFirst (sep : List Char) : List Char → Option (List Char)
  | [] => if sep.isEmpty then some [] else none
  | c :: rest =>
    if sep.isPrefixOf (c :: rest) then some ((c :: rest).drop sep.length)
    else afterFirst sep rest

/-- `line.strip().startswith("CART_URL:")`. -/
def isCartLine (line : List Char) : Bool := cartMarker.isPrefixOf (stripList line)

/-- `"could not be added" in line.lower() or "unavailable" in line.lower()`. -/
def isMissingLine (line : List Char) : Bool :=
  containsSub "could not be added".data (lowerList line) ||
    containsSub "unavailable".data (lowerList line)

/-- The `for line in lines` loop of the background task: the last
`CART_URL:` line overwrites `cart_url`; other lines carrying a missing-item
phrase are collected (stripped, in order). -/
def extractLoop : List (List Char) → Option (List Char) → List (List Char) →
    Option (List Char) × List (List Char)
  | [], url, missing => (url, missing)
  | line :: rest, url, missing =>
    if isCartLine line then
      extractLoop rest (some (stripList ((afterFirst cartMarker line).getD []))) missing
    else if isMissingLine line then
      extractLoop rest url (missing ++ [stripList line])
    else extractLoop rest url missing

/-- Python `"\n".join`. -/
def joinNL : List String → String
  | [] => ""
  | [x] => x
  | x :: y :: xs => x ++ "\n" ++ joinNL (y :: xs)

/-- The failure notification text (line 239). -/
def failureText (result : String) : String :=
  "‚ùå Order failed. Result:\n" ++ result

/-- The success notification text (lines 234-236). -/
def successText (u : List Char) (missing : List (List Char)) : String :=
  let base := "‚úÖ Your Tesco order is ready!\n\nüõí Cart URL: "
    ++ (⟨u⟩ : String)
  if missing.isEmpty then base
  else base ++ "\n\n‚ö†Ô∏è Some items couldn\u0027t be added:\n" ++
    joinNL (missing.map (fun m => "‚Ä¢ " ++ (⟨m⟩ : String)))

/-- The routing of the automation's final result text (lines 221-243):
split into lines, run the extraction loop, then — Python truthiness of
`cart_url` — build the success message (with the collected missing-item
lines) if the extracted URL is non-`None` and non-empty, else the failure
message embedding the raw result. The Bool records which branch was taken,
i.e. whether the run was classified as succeeded. -/
def run_result_routing (result : String) : Bool × String :=
  let lines := splitChar '\n' result.data
  let um := extractLoop lines none []
  match um.1 with
  | some u => if u.isEmpty then (false, failureText result) else (true, successText u um.2)
  | none => (false, failureText result)

/-- The claim's success predicate, read from the spec: the text contains a
line matching `^CART_URL:\s*(.+)$` with a non-empty URL. -/
def specCartSuccess (result : String) : Bool :=
  (splitChar '\n' result.data).any (fun line =>
    cartMarker.isPrefixOf line && !(stripList (line.drop cartMarker.length)).isEmpty)

/-- The URL extracted from the last line whose stripped form begins with
the marker, if any. -/
def lastCart : List (List Char) → Option (List Char)
  | [] => none
  | line :: rest =>
    match lastCart rest with
    | some u => some u
    | none =>
      if isCartLine line then some (stripList ((afterFirst cartMarker line).getD []))
      else none

/-- The stripped non-marker lines carrying a missing-item phrase, in order. -/
def missingLines : List (List Char) → List (List Char)
  | [] => []
  | line :: rest =>
    if isCartLine line then missingLines rest
    else if isMissingLine line then stripList line :: missingLines rest
    else missingLines rest

/-- Spec-shaped routing: success iff the last marker line yields a
non-empty URL; messages as in the code. -/
def routingSpec (result : String) : Bool × String :=
  let lines := splitChar '\n' result.data
  match lastCart lines with
  | some u => if u.isEmpty then (false, failureText result) else (true, successText u (missingLines lines))
  | none => (false, failureText result)

theorem extractLoop_eq : ∀ (lines : List (List Char)) (u0 : Option (List Char))
    (m0 : List (List Char)),
    extractLoop lines u0 m0 =
      ((match lastCart lines with | some u => some u | none => u0),
        m0 ++ missingLines lines) := by
  intro lines
  induction lines with
  | nil => intro u0 m0; simp [extractLoop, lastCart, missingLines]
  | cons line rest ih =>
    intro u0 m0
    by_cases hc : isCartLine line = true
    · simp only [extractLoop, hc, if_true, ih, lastCart, missingLines]
      cases lastCart rest <;> simp
    · by_cases hm : isMissingLine line = true
      · simp only [extractLoop, hc, hm, if_true, Bool.false_eq_true, if_false, ih,
          lastCart, missingLines]
        cases lastCart rest <;> simp
      · simp only [extractLoop, hc, hm, Bool.false_eq_true, if_false, ih,
          lastCart, missingLines]
        cases lastCart rest <;> simp

theorem run_result_routing_eq (result : String) :
    run_result_routing result = routingSpec result := by
  simp only [run_result_routing, routingSpec]
  rw [extractLoop_eq]
  cases lastCart (splitChar '\n' result.data) <;> simp

/-- C3 counterexample: the result text
`"CART_URL: https://x/cart\nCART_URL:"` contains a line matching
`^CART_URL:\s*(.+)$` with a non-empty URL, yet the code classifies the run
as failed (the later bare `CART_URL:` line overwrites the URL with the
empty string) and sends the failure notification with the raw text. -/
theorem run_result_routing_counterexample :
    specCartSuccess "CART_URL: https://x/cart\nCART_URL:" = true ∧
    (run_result_routing "CART_URL: https://x/cart\nCART_URL:").1 = false ∧
    (run_result_routing "CART_URL: https://x/cart\nCART_URL:").2 =
      failureText "CART_URL: https://x/cart\nCART_URL:" := by
  refine ⟨by decide, by decide, by decide⟩

/-- C3 (amended): the background task classifies the run as succeeded
exactly when the LAST line whose whitespace-trimmed form begins with
`CART_URL:` yields a non-empty trimmed URL after the marker (leading
whitespace before the marker is allowed); on success the notification
embeds that URL together with every other line (itself not a marker line)
containing the case-insensitive phrase `could not be added` or
`unavailable`, trimmed and in order, as missing items; on any other shape
the failure notification contains the raw result text. -/
theorem run_result_routing_amended :
    (∀ result : String, run_result_routing result = routingSpec result) ∧
    (∀ result : String, (run_result_routing result).1 = true ↔
      ∃ u, lastCart (splitChar '\n' result.data) = some u ∧ u ≠ []) ∧
    (∀ result : String, (run_result_routing result).1 = false →
      (run_result_routing result).2 = failureText result) := by
  refine ⟨run_result_routing_eq, fun result => ?_, fun result => ?_⟩
  · rw [run_result_routing_eq]
    simp only [routingSpec]
    cases hl : lastCart (splitChar '\n' result.data) with
    | none => simp
    | some u =>
      by_cases hu : u.isEmpty
      · have : u = [] := List.isEmpty_iff.mp hu
        subst this
        simp
      · have hne : u ≠ [] := fun h => by subst h; exact hu rfl
        simp [hu, hne]
  · rw [run_result_routing_eq]
    simp only [routingSpec]
    cases hl : lastCart (splitChar '\n' result.data) with
    | none => simp
    | some u =>
      by_cases hu : u.isEmpty
      · simp [hu]
      · simp [hu]

/-- Witness for the amended C3 theorem: a concrete result text with no
marker line is classified as failed with the failure message, and a
concrete two-marker text exercises the last-line rule. -/
theorem run_result_routing_amended_witness :
    (run_result_routing "nothing worked").2 = failureText "nothing worked" :=
  run_result_routing_amended.2.2 "nothing worked" (by decide)

/-! ## Webhook endpoint: `slack_events` -/

/-- Which call site of `post_to_slack` emitted a notification (trace label
only; the texts are modelled verbatim below). -/
inductive MsgKind where
  | ack | help | liveUrl | terminal
deriving DecidableEq

/-- Externally observable effects of handling one request: notification
posts and the scheduling of the background automation task
(`asyncio.create_task`). -/
inductive Action where
  | post (kind : MsgKind) (channel : Option String) (text : String) (ts : Option String)
  | spawn (items : List String) (channel : Option String) (ts : Option String)
deriving DecidableEq

def postKind : Action → Option MsgKind
  | .post k _ _ _ => some k
  | .spawn _ _ _ => none

/-- HTTP responses of the endpoint: a plain response with status and body,
or the JSON echo of a `url_verification` challenge. -/
inductive HttpResp where
  | plain (status : Nat) (content : String)
  | challenge (c : Option String)
deriving DecidableEq

/-- The inner `event` object of an `event_callback`. -/
inductive InnerEvent where
  | appMention (text : String) (channel : Option String) (ts : Option String)
  | otherEvent
deriving DecidableEq

/-- The parsed JSON body, by its `type` field. -/
inductive ReqData where
  | urlVerification (challenge : Option String)
  | eventCallback (event_id : Option String) (event : InnerEvent)
  | otherType
deriving DecidableEq

/-- An inbound POST: raw body, the two Slack headers, and the result of
`json.loads(body)` (`none` models `JSONDecodeError`). -/
structure Inbound where
  body : String
  timestamp : String
  signature : String
  parsed : Option ReqData
deriving DecidableEq

/-- Python `", ".join`. -/
def joinComma : List String → String
  | [] => ""
  | [x] => x
  | x :: y :: xs => x ++ ", " ++ joinComma (y :: xs)

/-- The help message posted for an empty grocery list (line 332). -/
def helpText : String :=
  "üëã Hi! Please mention me with a grocery list.\n\nExample: `@tesco-bot milk, bread, bananas`"

/-- The acknowledgment message (lines 338-345): up to 5 items, plus a
count of the remainder. -/
def ackText (items : List String) : String :=
  let items_text := joinComma (items.take 5)
  let items_text := if items.length > 5 then
    items_text ++ " and " ++ toString (items.length - 5) ++ " more..." else items_text
  "üõí Starting your Tesco order for: " ++ items_text ++
    "\n‚è≥ This will take a few minutes..."

/-- The `/slack/events` handler (lines 254-362) over the in-memory
`processed_events` state: verify the signature (401 on failure), parse the
JSON body (400 on failure), echo `url_verification` challenges, deduplicate
`event_callback`s by `event_id` (duplicate: 200, nothing else), and for a
fresh app-mention parse the grocery list, posting help for an empty list or
else posting the acknowledgment and scheduling the background task. -/
def slack_events (hm : String → String → String) (secret : Option String) (now : Int)
    (st : List (Option String)) (req : Inbound) :
    List (Option String) × HttpResp × List Action :=
  if !verify_slack_signature hm secret now req.body req.timestamp req.signature then
    (st, .plain 401 "Invalid signature", [])
  else
    match req.parsed with
    | none => (st, .plain 400 "Invalid JSON", [])
    | some (.urlVerification ch) => (st, .challenge ch, [])
    | some (.eventCallback event_id event) =>
      if st.contains event_id then (st, .plain 200 "", [])
      else
        let st' := event_id :: st
        match event with
        | .appMention text channel thread_ts =>
          let grocery_list := parse_grocery_list text
          if grocery_list.isEmpty then
            (st', .plain 200 "", [.post .help channel helpText thread_ts])
          else
            (st', .plain 200 "",
              [.post .ack channel (ackText grocery_list) thread_ts,
                .spawn grocery_list channel thread_ts])
        | .otherEvent => (st', .plain 200 "", [])
    | some .otherType => (st, .plain 200 "", [])

/-- C9: every request that fails signature verification — whatever the
failing condition — produces the identical observable rejection: HTTP 401
with body `"Invalid signature"`, unchanged state, and no further
processing. -/
theorem slack_events_uniform_401 (hm : String → String → String) (secret : Option String)
    (now : Int) (st : List (Option String)) (r r' : Inbound)
    (h : verify_slack_signature hm secret now r.body r.timestamp r.signature = false)
    (h' : verify_slack_signature hm secret now r'.body r'.timestamp r'.signature = false) :
    slack_events hm secret now st r = (st, .plain 401 "Invalid signature", []) ∧
    slack_events hm secret now st r' = (st, .plain 401 "Invalid signature", []) := by
  constructor <;> · unfold slack_events; simp [h, h']

/-- Witness for C9 at two concrete failing requests: one with an empty
timestamp header, one with a wrong signature (HMAC mismatch). -/
theorem slack_events_uniform_401_witness :
    slack_events (fun _ _ => "H") (some "s") 0 []
        ⟨"b", "", "sig", none⟩ = ([], .plain 401 "Invalid signature", []) ∧
    slack_events (fun _ _ => "H") (some "s") 0 []
        ⟨"b", "0", "wrong", some .otherType⟩ = ([], .plain 401 "Invalid signature", []) :=
  slack_events_uniform_401 (fun _ _ => "H") (some "s") 0 []
    ⟨"b", "", "sig", none⟩ ⟨"b", "0", "wrong", some .otherType⟩ (by decide) (by decide)

/-- C7: a verified, fresh app-mention whose text parses to an empty item
list posts the help message and returns HTTP 200 without scheduling the
background task. -/
theorem slack_events_empty_list_help (hm : String → String → String)
    (secret : Option String) (now : Int) (st : List (Option String)) (r : Inbound)
    (eid : Option String) (text : String) (channel ts : Option String)
    (hver : verify_slack_signature hm secret now r.body r.timestamp r.signature = true)
    (hparse : r.parsed = some (.eventCallback eid (.appMention text channel ts)))
    (hfresh : st.contains eid = false)
    (hempty : parse_grocery_list text = []) :
    slack_events hm secret now st r =
      (eid :: st, .plain 200 "", [.post .help channel helpText ts]) := by
  have hf : eid ∉ st := by simpa using hfresh
  unfold slack_events
  simp [hver, hparse, hf, hempty]

/-- Witness for C7: a concrete bare mention `"@tesco-bot"` parses to no
items and routes to the help message. -/
theorem slack_events_empty_list_help_witness :
    slack_events (fun _ _ => "H") (some "s") 0 []
        ⟨"b", "0", "v0=H", some (.eventCallback (some "E1")
          (.appMention "@tesco-bot" (some "C") (some "T")))⟩ =
      (some "E1" :: [], .plain 200 "",
        [.post .help (some "C") helpText (some "T")]) :=
  slack_events_empty_list_help (fun _ _ => "H") (some "s") 0 [] _
    (some "E1") "@tesco-bot" (some "C") (some "T")
    (by decide) rfl (by decide) (by decide)

/-! ## Background task trace and notification ordering -/

/-- Outcome of `run_groceries` as observed by the background task: a final
result text, or a raised fault. -/
inductive AutoOutcome where
  | finished (result : String)
  | fault (errMsg : String)
deriving DecidableEq

/-- The live-URL message (line 214). -/
def liveText (u : String) : String :=
  "üëÄ Watch the automation live:\n" ++ u

/-- The fault message (line 247). -/
def errorText (e : String) : String :=
  "‚ùå Error running automation: " ++ e

/-- Effects of `run_grocery_automation_background`: zero or more live-URL
posts fired by the step callback while the automation runs, then exactly
one terminal post — the routed success/failure message, or the caught-fault
message. -/
def backgroundTrace (channel ts : Option String) (liveUrls : List String)
    (out : AutoOutcome) : List Action :=
  (liveUrls.map (fun u => Action.post .liveUrl channel (liveText u) ts)) ++
    match out with
    | .finished r => [.post .terminal channel (run_result_routing r).2 ts]
    | .fault e => [.post .terminal channel (errorText e) ts]

/-- The combined effect trace of one request: the handler's synchronous
actions with the scheduled background task expanded in place. The
acknowledgment post is awaited inside the handler before
`asyncio.create_task` is called, and the single-threaded event loop only
starts the task afterwards, so the task's posts follow the acknowledgment
in every execution. -/
def fullTrace (hm : String → String → String) (secret : Option String) (now : Int)
    (st : List (Option String)) (req : Inbound) (liveUrls : List String)
    (out : AutoOutcome) : List Action :=
  ((slack_events hm secret now st req).2.2).flatMap (fun a =>
    match a with
    | .spawn _ ch ts => backgroundTrace ch ts liveUrls out
    | a => [a])

theorem slack_events_actions_cases (hm : String → String → String)
    (secret : Option String) (now : Int) (st : List (Option String)) (r : Inbound) :
    (slack_events hm secret now st r).2.2 = [] ∨
    (∃ ch ts, (slack_events hm secret now st r).2.2 = [.post .help ch helpText ts]) ∨
    (∃ items ch ts, (slack_events hm secret now st r).2.2 =
      [.post .ack ch (ackText items) ts, .spawn items ch ts]) := by
  unfold slack_events
  cases hv : verify_slack_signature hm secret now r.body r.timestamp r.signature
  · left; simp
  · simp only [Bool.not_true, Bool.false_eq_true, if_false]
    match hp : r.parsed with
    | none => left; rfl
    | some (.urlVerification ch) => left; rfl
    | some .otherType => left; rfl
    | some (.eventCallback eid ev) =>
      by_cases hdup : eid ∈ st
      · left; simp [hdup]
      · match hev : ev with
        | .otherEvent => left; simp [hdup]
        | .appMention text channel ts =>
          by_cases hemp : parse_grocery_list text = []
          · right; left
            exact ⟨channel, ts, by simp [hdup, hemp]⟩
          · right; right
            exact ⟨parse_grocery_list text, channel, ts, by simp [hdup, hemp]⟩

/-- C6: in the combined trace of any request, every terminal
(success/failure) notification is preceded by the acknowledgment
notification: the acknowledgment is posted synchronously in the handler
before the background task is scheduled, and only the background task posts
terminal notifications. -/
theorem ack_before_terminal (hm : String → String → String) (secret : Option String)
    (now : Int) (st : List (Option String)) (r : Inbound) (liveUrls : List String)
    (out : AutoOutcome) (n : Nat) (a : Action)
    (hget : (fullTrace hm secret now st r liveUrls out).get? n = some a)
    (hterm : postKind a = some .terminal) :
    ∃ m a', m < n ∧ (fullTrace hm secret now st r liveUrls out).get? m = some a' ∧
      postKind a' = some .ack := by
  rcases slack_events_actions_cases hm secret now st r with hc | ⟨ch, ts, hc⟩ |
    ⟨items, ch, ts, hc⟩
  · rw [fullTrace, hc] at hget
    simp at hget
  · rw [fullTrace, hc] at hget
    match n, hget with
    | 0, hget =>
      have : a = .post .help ch helpText ts := by
        have h2 := hget
        simp [List.flatMap] at h2
        exact h2.symm
      rw [this] at hterm
      exact absurd hterm (by simp [postKind])
    | n + 1, hget =>
      exfalso
      have : ((([Action.post .help ch helpText ts]).flatMap (fun a =>
          match a with
          | .spawn _ ch ts => backgroundTrace ch ts liveUrls out
          | a => [a])).get? (n + 1)) = none := by
        simp [List.flatMap]
      rw [this] at hget
      exact Option.noConfusion hget
  · refine ⟨0, .post .ack ch (ackText items) ts, ?_, ?_, rfl⟩
    · by_contra hn
      have hn0 : n = 0 := by omega
      subst hn0
      rw [fullTrace, hc] at hget
      have : a = .post .ack ch (ackText items) ts := by
        have h2 := hget
        simp [List.flatMap] at h2
        exact h2.symm
      rw [this] at hterm
      exact absurd hterm (by simp [postKind])
    · rw [fullTrace, hc]
      simp [List.flatMap]

/-- Witness for C6: a concrete verified fresh app-mention with one item and
a finished automation; the terminal post sits at index 1, preceded by the
acknowledgment at index 0. -/
theorem ack_before_terminal_witness :
    ∃ m a', m < 1 ∧
      (fullTrace (fun _ _ => "H") (some "s") 0 []
        ⟨"b", "0", "v0=H", some (.eventCallback (some "E1")
          (.appMention "milk" (some "C") (some "T")))⟩ [] (.finished "oops")).get? m =
        some a' ∧ postKind a' = some .ack :=
  ack_before_terminal (fun _ _ => "H") (some "s") 0 []
    ⟨"b", "0", "v0=H", some (.eventCallback (some "E1")
      (.appMention "milk" (some "C") (some "T")))⟩ [] (.finished "oops") 1
    (.post .terminal (some "C") (run_result_routing "oops").2 (some "T"))
    (by decide) rfl

/-! ## Sequential runs and deduplication -/

/-- The responses and effects of handling a sequence of requests in order,
threading the `processed_events` state (the handler performs its
check-and-add without an intervening suspension point, so concurrent
deliveries interleave at request granularity for the dedup check). -/
def runServer (hm : String → String → String) (secret : Option String) (now : Int) :
    List (Option String) → List Inbound → List (HttpResp × List Action)
  | _, [] => []
  | st, r :: rs =>
    ((slack_events hm secret now st r).2.1, (slack_events hm secret now st r).2.2) ::
      runServer hm secret now (slack_events hm secret now st r).1 rs

/-- The `processed_events` state after handling a sequence of requests. -/
def runServerState (hm : String → String → String) (secret : Option String) (now : Int) :
    List (Option String) → List Inbound → List (Option String)
  | st, [] => st
  | st, r :: rs => runServerState hm secret now (slack_events hm secret now st r).1 rs

theorem slack_events_state_mono (hm : String → String → String) (secret : Option String)
    (now : Int) (st : List (Option String)) (r : Inbound) (e : Option String)
    (h : e ∈ st) : e ∈ (slack_events hm secret now st r).1 := by
  unfold slack_events
  cases hv : verify_slack_signature hm secret now r.body r.timestamp r.signature
  · simpa using h
  · simp only [Bool.not_true, Bool.false_eq_true, if_false]
    match hp : r.parsed with
    | none => simpa using h
    | some (.urlVerification ch) => simpa using h
    | some .otherType => simpa using h
    | some (.eventCallback eid ev) =>
      by_cases hdup : eid ∈ st
      · simpa [hdup] using h
      · match ev with
        | .otherEvent => simp [hdup]; right; exact h
        | .appMention text channel ts =>
          by_cases hemp : parse_grocery_list text = [] <;>
            · simp [hdup, hemp]; right; exact h

theorem slack_events_dup (hm : String → String → String) (secret : Option String)
    (now : Int) (st : List (Option String)) (r : Inbound) (e : Option String)
    (ev : InnerEvent)
    (hver : verify_slack_signature hm secret now r.body r.timestamp r.signature = true)
    (hp : r.parsed = some (.eventCallback e ev)) (hdup : e ∈ st) :
    slack_events hm secret now st r = (st, .plain 200 "", []) := by
  unfold slack_events
  simp [hver, hp, hdup]

theorem slack_events_marks (hm : String → String → String) (secret : Option String)
    (now : Int) (st : List (Option String)) (r : Inbound) (e : Option String)
    (ev : InnerEvent)
    (hver : verify_slack_signature hm secret now r.body r.timestamp r.signature = true)
    (hp : r.parsed = some (.eventCallback e ev)) :
    e ∈ (slack_events hm secret now st r).1 := by
  unfold slack_events
  simp only [hver, Bool.not_true, Bool.false_eq_true, if_false, hp]
  by_cases hdup : e ∈ st
  · simp [hdup]
  · match ev with
    | .otherEvent => simp [hdup]
    | .appMention text channel ts =>
      by_cases hemp : parse_grocery_list text = [] <;> simp [hdup, hemp]

theorem slack_events_fresh_state (hm : String → String → String) (secret : Option String)
    (now : Int) (st : List (Option String)) (r : Inbound) (e : Option String)
    (ev : InnerEvent)
    (hver : verify_slack_signature hm secret now r.body r.timestamp r.signature = true)
    (hp : r.parsed = some (.eventCallback e ev)) (hfresh : e ∉ st) :
    (slack_events hm secret now st r).1 = e :: st := by
  unfold slack_events
  simp only [hver, Bool.not_true, Bool.false_eq_true, if_false, hp]
  match ev with
  | .otherEvent => simp [hfresh]
  | .appMention text channel ts =>
    by_cases hemp : parse_grocery_list text = [] <;> simp [hfresh, hemp]

theorem runServer_inert (hm : String → String → String) (secret : Option String)
    (now : Int) : ∀ (reqs : List Inbound) (st : List (Option String)) (e : Option String),
    e ∈ st → ∀ (j : Nat) (rj : Inbound) (evj : InnerEvent),
    reqs.get? j = some rj →
    verify_slack_signature hm secret now rj.body rj.timestamp rj.signature = true →
    rj.parsed = some (.eventCallback e evj) →
    (runServer hm secret now st reqs).get? j = some (.plain 200 "", []) := by
  intro reqs
  induction reqs with
  | nil => intro st e hmem j rj evj hj; simp at hj
  | cons r rs ih =>
    intro st e hmem j rj evj hj hver hp
    cases j with
    | zero =>
      simp only [List.get?] at hj
      injection hj with hj
      subst hj
      unfold runServer
      rw [slack_events_dup hm secret now st r e evj hver hp hmem]
      rfl
    | succ j =>
      simp only [List.get?] at hj
      unfold runServer
      simp only [List.get?]
      exact ih (slack_events hm secret now st r).1 e
        (slack_events_state_mono hm secret now st r e hmem) j rj evj hj hver hp

/-- C2: in any sequence of handled requests, once some request carrying a
given `event_id` has been handled as a verified `event_callback`, every
later verified `event_callback` request carrying the same `event_id`
returns HTTP 200 with no notification and no background-task scheduling —
so the automation dispatcher runs at most once per `event_id` for the life
of the process. -/
theorem dedup_dispatch_at_most_once (hm : String → String → String)
    (secret : Option String) (now : Int) :
    ∀ (reqs : List Inbound) (st0 : List (Option String)) (i j : Nat)
      (ri rj : Inbound) (e : Option String) (evi evj : InnerEvent),
    i < j →
    reqs.get? i = some ri → reqs.get? j = some rj →
    verify_slack_signature hm secret now ri.body ri.timestamp ri.signature = true →
    ri.parsed = some (.eventCallback e evi) →
    verify_slack_signature hm secret now rj.body rj.timestamp rj.signature = true →
    rj.parsed = some (.eventCallback e evj) →
    (runServer hm secret now st0 reqs).get? j = some (.plain 200 "", []) := by
  intro reqs
  induction reqs with
  | nil => intro st0 i j ri rj e evi evj hij hi hj; simp at hi
  | cons r rs ih =>
    intro st0 i j ri rj e evi evj hij hi hj hveri hpi hverj hpj
    cases j with
    | zero => omega
    | succ j =>
      simp only [List.get?] at hj
      unfold runServer
      simp only [List.get?]
      cases i with
      | zero =>
        simp only [List.get?] at hi
        injection hi with hi
        subst hi
        exact runServer_inert hm secret now rs (slack_events hm secret now st0 r).1 e
          (slack_events_marks hm secret now st0 r e evi hveri hpi) j rj evj hj hverj hpj
      | succ i =>
        simp only [List.get?] at hi
        exact ih (slack_events hm secret now st0 r).1 i j ri rj e evi evj
          (by omega) hi hj hveri hpi hverj hpj

/-- Witness for C2: two identical verified app-mention requests with the
same event id; the second yields HTTP 200 with no actions. -/
theorem dedup_dispatch_at_most_once_witness :
    (runServer (fun _ _ => "H") (some "s") 0 []
      [⟨"b", "0", "v0=H", some (.eventCallback (some "E")
          (.appMention "milk" (some "C") (some "T")))⟩,
       ⟨"b", "0", "v0=H", some (.eventCallback (some "E")
          (.appMention "milk" (some "C") (some "T")))⟩]).get? 1 =
      some (.plain 200 "", []) :=
  dedup_dispatch_at_most_once (fun _ _ => "H") (some "s") 0 _ [] 0 1 _ _
    (some "E") (.appMention "milk" (some "C") (some "T"))
    (.appMention "milk" (some "C") (some "T"))
    (by decide) rfl rfl (by decide) rfl (by decide) rfl

/-- Does the parsed body carry an `event_callback` with a missing
`event_id` (Python `data.get("event_id")` returning `None`)? -/
def isNoneCallback : Option ReqData → Bool
  | some (.eventCallback none _) => true
  | _ => false

theorem isNoneCallback_elim {p : Option ReqData} (h : isNoneCallback p = true) :
    ∃ ev, p = some (.eventCallback none ev) := by
  match p with
  | some (.eventCallback none ev) => exact ⟨ev, rfl⟩
  | none => simp [isNoneCallback] at h
  | some (.urlVerification _) => simp [isNoneCallback] at h
  | some .otherType => simp [isNoneCallback] at h
  | some (.eventCallback (some _) _) => simp [isNoneCallback] at h

theorem runServerState_inert (hm : String → String → String) (secret : Option String)
    (now : Int) : ∀ (rs : List Inbound) (st : List (Option String)),
    (∀ r ∈ rs,
      verify_slack_signature hm secret now r.body r.timestamp r.signature = true ∧
      isNoneCallback r.parsed = true) →
    none ∈ st → runServerState hm secret now st rs = st := by
  intro rs
  induction rs with
  | nil => intro st _ _; rfl
  | cons r rs ih =>
    intro st hall hmem
    obtain ⟨hver, hnc⟩ := hall r (by simp)
    obtain ⟨ev, hp⟩ := isNoneCallback_elim hnc
    unfold runServerState
    rw [slack_events_dup hm secret now st r none ev hver hp hmem]
    exact ih st (fun x hx => hall x (by simp [hx])) hmem

/-- C10: over a sequence of verified `event_callback` requests that all
lack an `event_id`, only the first is processed: the missing id is recorded
in the processed-event set as the single `none` value, and every subsequent
such request returns HTTP 200 with no notification and no dispatch. -/
theorem missing_event_id_dedup (hm : String → String → String)
    (secret : Option String) (now : Int) (reqs : List Inbound)
    (hall : ∀ r ∈ reqs,
      verify_slack_signature hm secret now r.body r.timestamp r.signature = true ∧
      isNoneCallback r.parsed = true) :
    (∀ (j : Nat) (rj : Inbound), 1 ≤ j → reqs.get? j = some rj →
      (runServer hm secret now [] reqs).get? j = some (.plain 200 "", [])) ∧
    (reqs ≠ [] → runServerState hm secret now [] reqs = [none]) := by
  constructor
  · intro j rj hj hget
    cases reqs with
    | nil => simp at hget
    | cons r0 rs =>
      cases j with
      | zero => omega
      | succ j =>
        obtain ⟨hver0, hnc0⟩ := hall r0 (by simp)
        obtain ⟨ev0, hp0⟩ := isNoneCallback_elim hnc0
        simp only [List.get?] at hget
        have hrjmem : rj ∈ r0 :: rs := by
          have := List.get?_mem hget
          exact List.mem_cons_of_mem r0 this
        obtain ⟨hverj, hncj⟩ := hall rj hrjmem
        obtain ⟨evj, hpj⟩ := isNoneCallback_elim hncj
        unfold runServer
        simp only [List.get?]
        exact runServer_inert hm secret now rs (slack_events hm secret now [] r0).1 none
          (slack_events_marks hm secret now [] r0 none ev0 hver0 hp0) j rj evj
          hget hverj hpj
  · intro hne
    cases reqs with
    | nil => exact absurd rfl hne
    | cons r0 rs =>
      obtain ⟨hver0, hnc0⟩ := hall r0 (by simp)
      obtain ⟨ev0, hp0⟩ := isNoneCallback_elim hnc0
      unfold runServerState
      rw [slack_events_fresh_state hm secret now [] r0 none ev0 hver0 hp0 (by simp)]
      exact runServerState_inert hm secret now rs [none]
        (fun x hx => hall x (by simp [hx])) (by simp)

/-- Witness for C10: two verified app-mention `event_callback`s with no
`event_id`; the second is a no-op 200 and the final state is `[none]`. -/
theorem missing_event_id_dedup_witness :
    (runServer (fun _ _ => "H") (some "s") 0 []
      [⟨"b", "0", "v0=H", some (.eventCallback none
          (.appMention "milk" (some "C") (some "T")))⟩,
       ⟨"b", "0", "v0=H", some (.eventCallback none
          (.appMention "milk" (some "C") (some "T")))⟩]).get? 1 =
        some (.plain 200 "", []) ∧
    runServerState (fun _ _ => "H") (some "s") 0 []
      [⟨"b", "0", "v0=H", some (.eventCallback none
          (.appMention "milk" (some "C") (some "T")))⟩,
       ⟨"b", "0", "v0=H", some (.eventCallback none
          (.appMention "milk" (some "C") (some "T")))⟩] = [none] := by
  have h := missing_event_id_dedup (fun _ _ => "H") (some "s") 0
    [⟨"b", "0", "v0=H", some (.eventCallback none
        (.appMention "milk" (some "C") (some "T")))⟩,
     ⟨"b", "0", "v0=H", some (.eventCallback none
        (.appMention "milk" (some "C") (some "T")))⟩] (by decide)
  exact ⟨h.1 1 _ (by decide) rfl, h.2 (by simp)⟩

end SlackBot
